import Mathlib

/-!
Verification development for the PDS4 Ginga browser plugin
(`plugins/PDS4Browser.py`).

The file shallowly embeds the plugin's two cores:

* `PDS4LabelHandler.load_file` — the URL-scheme gate and the image
  orientation normalizer (transpose / horizontal flip / vertical flip
  driven by the PDS4 `Display_Direction` metadata);
* `PDS4Browser` — directory listing (`browse`, `get_info`) and path
  expansion (`open_files`).

Python built-ins that the plugin leans on (string comparison,
`str.lower`, substring containment, `os.path.split`/`join`/`splitext`,
`urllib.parse.urlparse` scheme extraction, decimal/octal rendering) are
embedded as executable Lean functions modelling the CPython semantics the
plugin exercises.  The filesystem (`os.path.isdir`, `os.path.islink`,
`glob.glob`, `os.stat`, `os.path.abspath`, `time.ctime`) is an oracle
passed in as a structure of functions, so every theorem quantifies over
all filesystems.
-/

namespace PDS4

/-! ## Python string primitives -/

/-- `b.startswith(a)` on explicit character lists. -/
def startsWithList : List Char → List Char → Bool
  | _, [] => true
  | [], _ :: _ => false
  | a :: as, b :: bs => a == b && startsWithList as bs

/-- Python's substring containment `needle in hay`, on character lists:
true iff `needle` occurs contiguously inside `hay`. -/
def containsSub : List Char → List Char → Bool
  | [], needle => needle.isEmpty
  | a :: t, needle => startsWithList (a :: t) needle || containsSub t needle

/-- Python's `needle in hay` for strings. -/
def pyIn (needle hay : String) : Bool :=
  containsSub hay.data needle.data

/-- Python's `s.lower()` (ASCII case fold, which is all the plugin needs). -/
def pyLower (s : String) : String :=
  String.mk (s.data.map Char.toLower)

/-- Python's `a <= b` on strings: lexicographic by code point. -/
def pyLeList : List Char → List Char → Bool
  | [], _ => true
  | _ :: _, [] => false
  | a :: as, b :: bs => if a < b then true else if b < a then false else pyLeList as bs

/-- `a <= b` for Lean strings, with Python's string-comparison semantics. -/
def pyLe (a b : String) : Bool := pyLeList a.data b.data

/-- Decimal digit characters, used to model `str(n)` / `'%d' % n`. -/
def digitChar : Nat → Char
  | 0 => '0' | 1 => '1' | 2 => '2' | 3 => '3' | 4 => '4'
  | 5 => '5' | 6 => '6' | 7 => '7' | 8 => '8' | 9 => '9'
  | _ => '*'

/-- Decimal digits of `n`, most significant first, by structural
recursion on a fuel bound (any fuel above `n` yields the digits). -/
def natDigitsCore (fuel n : Nat) : List Char :=
  match fuel with
  | 0 => []
  | fuel + 1 =>
    if n < 10 then [digitChar n]
    else natDigitsCore fuel (n / 10) ++ [digitChar (n % 10)]

/-- Decimal digits of `n`, most significant first: models Python's
`str(n)` for a non-negative integer. -/
def natDigits (n : Nat) : List Char := natDigitsCore (n + 1) n

/-- Python's `str(n)` for a non-negative integer. -/
def pyStr (n : Nat) : String := String.mk (natDigits n)

/-- Octal digits of `n`, most significant first, by structural
recursion on a fuel bound. -/
def octDigitsCore (fuel n : Nat) : List Char :=
  match fuel with
  | 0 => []
  | fuel + 1 =>
    if n < 8 then [digitChar n]
    else octDigitsCore fuel (n / 8) ++ [digitChar (n % 8)]

/-- Octal digits of `n`, most significant first. -/
def octDigits (n : Nat) : List Char := octDigitsCore (n + 1) n

/-- Python's `oct(n)` for a non-negative integer: `"0o"` + octal digits. -/
def pyOct (n : Nat) : String := "0o" ++ String.mk (octDigits n)

/-- Numeric value of a list of decimal digit characters (most
significant first). -/
def digitsVal (l : List Char) : Nat :=
  l.foldl (fun a c => a * 10 + (c.toNat - 48)) 0

/-! ## PDS4 metadata model (`struct[i].meta_data`)

`meta_data.display_settings['Display_Direction']` carries four fields;
`meta_data.get_axis_array(name)` looks an axis up by name in the label's
`Axis_Array` list and yields `None` when absent. -/

/-- One `Axis_Array` element of a PDS4 label: its name and 1-based
`sequence_number`. -/
structure AxisArray where
  axis_name : String
  sequence_number : Nat
deriving DecidableEq, Repr

/-- The `Display_Direction` dictionary of the label's display settings. -/
structure DisplayDirection where
  horizontal_display_axis : String
  horizontal_display_direction : String
  vertical_display_axis : String
  vertical_display_direction : String
deriving DecidableEq, Repr

/-- The slice of `struct[i].meta_data` that `load_file` reads. -/
structure MetaData where
  display_direction : DisplayDirection
  axis_arrays : List AxisArray
deriving DecidableEq, Repr

/-- `meta_data.get_axis_array(axis_name)`: first `Axis_Array` with the
given name, `none` when the label declares no such axis. -/
def get_axis_array (md : MetaData) (name : String) : Option AxisArray :=
  md.axis_arrays.find? (fun a => a.axis_name == name)

/-! ## numpy operations used by `load_file`

The raw data is a rectangular 2-D numpy array, embedded as a list of
rows.  `im.T` of a rectangular 2-D array is the matrix transpose
(element `(i, j)` of the result is element `(j, i)` of the input);
`im[:, ::-1]` reverses every row; `im[::-1]` reverses the row order. -/

/-- numpy `im.T` for a rectangular 2-D array (row `c` of the result
collects entry `c` of every input row). -/
def npT [Inhabited α] (im : List (List α)) : List (List α) :=
  match im with
  | [] => []
  | r0 :: _ => (List.range r0.length).map (fun c => im.map (fun row => row.getD c default))

/-- numpy `im.T` for a rectangular 3-D array: axis order is reversed,
so entry `(i, j, k)` of the result is entry `(k, j, i)` of the input. -/
def npT3 [Inhabited α] (im : List (List (List α))) : List (List (List α)) :=
  match im with
  | [] => []
  | p0 :: _ =>
    match p0 with
    | [] => []
    | r0 :: _ =>
      (List.range r0.length).map (fun k =>
        (List.range p0.length).map (fun j =>
          im.map (fun plane => (plane.getD j []).getD k default)))

/-! ## The orientation normalizer (`load_file` lines 85–102) -/

/-- The orientation-normalizing portion of `PDS4LabelHandler.load_file`
applied to a 2-D array, lines 85–102 of the source:

* look up the `Axis_Array` named by `horizontal_display_axis`
  (`none` models the uncaught `TypeError` Python raises when
  `get_axis_array` returns `None`);
* `im = im.T` iff that axis's `sequence_number == 1`;
* `im = im[:, ::-1]` iff `'Right to Left' in horizontal_display_direction`;
* `im = im[::-1]` iff `'Top to Bottom' in vertical_display_direction`. -/
def orient (im : List (List Int)) (md : MetaData) : Option (List (List Int)) := do
  let haxis ← get_axis_array md md.display_direction.horizontal_display_axis
  let im := if haxis.sequence_number == 1 then npT im else im
  let im := if pyIn "Right to Left" md.display_direction.horizontal_display_direction
            then im.map List.reverse else im
  let im := if pyIn "Top to Bottom" md.display_direction.vertical_display_direction
            then im.reverse else im
  return im

/-- The same lines 85–102 of `load_file` applied to a rank-3 array:
the code performs no rank check, so numpy simply executes `im.T`
(reversing all three axes), `im[:, ::-1]` (reversing axis 1) and
`im[::-1]` (reversing axis 0) on the 3-D array. -/
def orient3 (im : List (List (List Int))) (md : MetaData) :
    Option (List (List (List Int))) := do
  let haxis ← get_axis_array md md.display_direction.horizontal_display_axis
  let im := if haxis.sequence_number == 1 then npT3 im else im
  let im := if pyIn "Right to Left" md.display_direction.horizontal_display_direction
            then im.map List.reverse else im
  let im := if pyIn "Top to Bottom" md.display_direction.vertical_display_direction
            then im.reverse else im
  return im

/-- Entry `(r, c)` of a 2-D array, when in range. -/
def cell (im : List (List Int)) (r c : Nat) : Option Int :=
  (im[r]?).bind (fun row => row[c]?)

/-! ## `os.path` primitives -/

/-- `os.path.split(p)` (posixpath): split at the last `'/'`; the head
keeps no trailing slashes unless it consists only of slashes. -/
def os_split (p : String) : String × String :=
  let rev := p.data.reverse
  let tail := (rev.takeWhile (fun c => c != '/')).reverse
  let headRev := rev.dropWhile (fun c => c != '/')
  let head :=
    if headRev.isEmpty || headRev.all (fun c => c == '/') then headRev.reverse
    else (headRev.dropWhile (fun c => c == '/')).reverse
  (String.mk head, String.mk tail)

/-- `os.path.join(a, b)` (posixpath, two arguments): `b` when it is
absolute; otherwise `a` and `b` joined with a `'/'` unless `a` is empty
or already ends with one. -/
def os_join (a b : String) : String :=
  if startsWithList b.data ['/'] then b
  else if a = "" || a.data.getLast? = some '/' then a ++ b
  else a ++ "/" ++ b

/-- `os.path.splitext(name)` for a basename: the extension starts at the
last dot, provided some earlier character of the name is not a dot. -/
def splitext (name : String) : String × String :=
  let rev := name.data.reverse
  let eRev := rev.takeWhile (fun c => c != '.')
  match rev.dropWhile (fun c => c != '.') with
  | '.' :: restRev =>
    if restRev.any (fun c => c != '.') then
      (String.mk restRev.reverse, String.mk ('.' :: eRev.reverse))
    else (name, "")
  | _ => (name, "")

/-! ## `urllib.parse` scheme extraction (`urlparse`) -/

/-- Characters allowed in a URL scheme. -/
def schemeChar (c : Char) : Bool :=
  c.isAlpha || c.isDigit || c == '+' || c == '-' || c == '.'

/-- Split a character list at its first `':'`, when present. -/
def splitAtColon (l : List Char) : Option (List Char × List Char) :=
  match l.dropWhile (fun c => c != ':') with
  | ':' :: rest => some (l.takeWhile (fun c => c != ':'), rest)
  | _ => none

/-- `urlparse(url)`'s scheme recognition together with the remainder of
the URL: a scheme is the lowercased text before the first `':'` when that
text is nonempty, starts with a letter and uses only scheme characters;
otherwise the scheme is `""` and the whole URL remains. -/
def urlsplit2 (url : String) : String × List Char :=
  match splitAtColon url.data with
  | some (before, rest) =>
    if before ≠ [] ∧ (before.headD ' ').isAlpha ∧ before.all schemeChar
    then (String.mk (before.map Char.toLower), rest) else ("", url.data)
  | none => ("", url.data)

/-- `urlparse(url).scheme`. -/
def urlsplit_scheme (url : String) : String := (urlsplit2 url).1

/-- `urlparse(url).path`: remainder after the scheme, with any fragment
(`#...`) and query (`?...`) removed and, when the remainder starts with
`"//"`, the netloc (up to the next `'/'`) removed. -/
def urlsplit_path (url : String) : String :=
  let rest := (urlsplit2 url).2
  let rest := rest.takeWhile (fun c => c != '#')
  let rest := rest.takeWhile (fun c => c != '?')
  match rest with
  | '/' :: '/' :: r => String.mk (r.dropWhile (fun c => c != '/'))
  | _ => String.mk rest

/-! ## The filesystem oracle

`os.path.isdir` / `os.path.islink` / `glob.glob` / `os.stat` /
`os.path.abspath` / `time.ctime` as an abstract environment: every
theorem about the browser quantifies over all such oracles. -/

/-- The fields of `os.stat_result` the plugin reads.  `st_mtime` (a
float timestamp in Python) is modelled as integer seconds; the plugin
only ever stores it or renders it through `time.ctime`. -/
structure Stat where
  st_mode : Nat
  st_size : Nat
  st_mtime : Int
deriving DecidableEq, Repr

/-- The filesystem oracle.  `stat` returns `none` when `os.stat` raises
`OSError`. -/
structure FS where
  isDir : String → Bool
  isLink : String → Bool
  glob : String → List String
  stat : String → Option Stat
  abspath : String → String
  ctime : Int → String

/-- The `type` tag `get_info` assigns: `'file'`, `'dir'`, `'link'` or
`'xml'`. -/
inductive FType
  | file | dir | link | xml
deriving DecidableEq, Repr

/-- The Bunch `get_info` builds for one path (the plugin's FileEntry).
The `icon` column attribute stays at its `'N/A'` placeholder inside
`get_info` (it is assigned later, in `makelisting`), so it is omitted. -/
structure FileEntry where
  path : String
  name : String
  ftype : FType
  st_mode : Nat
  st_mode_oct : String
  st_size : Nat
  st_size_str : String
  st_mtime : Int
  st_mtime_str : String
deriving DecidableEq, Repr

/-! ## `PDS4Browser.get_info` (lines 355–382) -/

/-- The classification chain of `get_info` lines 358–364:
`'dir'` if the path is a directory, else `'link'` if a symbolic link,
else `'xml'` if the extension lowercases to `.xml`, else `'file'`. -/
def file_type (fs : FS) (path : String) : FType :=
  let filename := (os_split path).2
  let ext := (splitext filename).2
  if fs.isDir path then .dir
  else if fs.isLink path then .link
  else if pyLower ext = ".xml" then .xml
  else .file

/-- `PDS4Browser.get_info`: stat the path and build the entry; when
`os.stat` raises `OSError`, the numeric fields are zeroed and the
string renderings keep their `'N/A'` placeholders from `na_dict`. -/
def get_info (fs : FS) (path : String) : FileEntry :=
  let filename := (os_split path).2
  let ftype := file_type fs path
  match fs.stat path with
  | some st =>
    { path := path, name := filename, ftype := ftype,
      st_mode := st.st_mode, st_mode_oct := pyOct st.st_mode,
      st_size := st.st_size, st_size_str := pyStr st.st_size,
      st_mtime := st.st_mtime, st_mtime_str := fs.ctime st.st_mtime }
  | none =>
    { path := path, name := filename, ftype := ftype,
      st_mode := 0, st_mode_oct := "N/A",
      st_size := 0, st_size_str := "N/A",
      st_mtime := 0, st_mtime_str := "N/A" }

/-! ## `PDS4Browser.browse` (lines 384–411) -/

/-- Stable insertion into a sorted list: `x` goes before the first
element it compares `le` to, hence after every earlier element with an
equal key. -/
def insertSorted (le : α → α → Bool) (x : α) : List α → List α
  | [] => [x]
  | y :: ys => if le x y then x :: y :: ys else y :: insertSorted le x ys

/-- Stable insertion sort.  Models Python's `list.sort` (Timsort): both
are stable, and a stable sort's output is uniquely determined by the
comparator (when it is a total preorder) and the input order. -/
def sortBy (le : α → α → Bool) : List α → List α
  | [] => []
  | x :: xs => insertSorted le x (sortBy le xs)

/-- The comparator of `filelist.sort(key=lambda s: s.lower())`. -/
def lowerLe (a b : String) : Bool := pyLe (pyLower a) (pyLower b)

/-- The directory component `browse` resolves (lines 386–391): the path
itself when it is a directory, otherwise its `os.path.split` head, made
absolute. -/
def browse_dirname (fs : FS) (path : String) : String :=
  fs.abspath (if fs.isDir path then path else (os_split path).1)

/-- The glob component `browse` uses (lines 386–399): `None` (for a
directory path) and the empty string both fall back to `'*'`. -/
def browse_globname (fs : FS) (path : String) : String :=
  if fs.isDir path then "*"
  else if (os_split path).2 = "" then "*" else (os_split path).2

/-- The pattern `browse` globs and stores as `curpath` (line 400). -/
def browse_glob_path (fs : FS) (path : String) : String :=
  os_join (browse_dirname fs path) (browse_globname fs path)

/-- The state `browse` mutates: `self.jumpinfo` and `self.curpath`. -/
structure BrowserState where
  jumpinfo : List FileEntry
  curpath : String
deriving DecidableEq, Repr

/-- `PDS4Browser.browse`: resolve the directory component; when it is
not a directory, report `"Not a valid path: ..."` (via
`self.fv.show_error`, modelled as the returned message) and leave the
state untouched; otherwise glob the pattern, sort the matches by their
lowercased text, prepend the synthetic `<dir>/..` entry, and replace
`jumpinfo` and `curpath` wholesale. -/
def browse (fs : FS) (path : String) (st : BrowserState) :
    BrowserState × Option String :=
  let dirname := browse_dirname fs path
  if ¬ fs.isDir dirname then (st, some ("Not a valid path: " ++ dirname))
  else
    let pat := browse_glob_path fs path
    let filelist := sortBy lowerLe (fs.glob pat)
    let filelist := os_join dirname ".." :: filelist
    ({ jumpinfo := filelist.map (get_info fs), curpath := pat }, none)

/-! ## `PDS4Browser.open_files` (lines 316–334) -/

/-- Line 321–322: `if path.endswith('*'): path = path[:-1]`. -/
def stripStar (p : String) : String :=
  if p.data.getLast? = some '*' then String.mk p.data.dropLast else p

/-- Modelled from the spec: `ginga.util.iohelper.get_fileinfo` is ginga
library code, not part of this repository.  Spec §4.2 step 3: "Parse a
trailing bracketed sub-index suffix (e.g. `[N]`) off the path if
present, extracting `sub_index`; the remaining string is the glob
pattern."  The suffix is recognized at the last `'['` when the final
character is `']'` and the bracketed text is a nonempty digit string. -/
def get_fileinfo (path : String) : String × Option Nat :=
  match path.data.reverse with
  | ']' :: rest =>
    let inner := rest.takeWhile (fun c => c != '[')
    match rest.dropWhile (fun c => c != '[') with
    | '[' :: beforeRev =>
      if inner ≠ [] ∧ inner.all Char.isDigit
      then (String.mk beforeRev.reverse, some (digitsVal inner.reverse))
      else (path, none)
    | _ => (path, none)
  | _ => (path, none)

/-- Modelled from the spec: `ginga.util.iohelper.get_hdu_suffix` is
ginga library code, not part of this repository.  It renders the
sub-index back into its bracketed suffix form (`"[N]"`), or `""` when
no sub-index is present (spec §4.2 step 4: each match gets "the same
`sub_index` suffix (if present)" reattached). -/
def get_hdu_suffix : Option Nat → String
  | some n => "[" ++ pyStr n ++ "]"
  | none => ""

/-- `PDS4Browser.open_files`: strip a single trailing `'*'`; when the
result is a directory return `False` (a browse request) without loading
anything; otherwise parse off the sub-index suffix, glob the remaining
pattern and reattach the suffix to every match.  The returned list
holds the paths handed to `load_paths` (empty when nothing is loaded). -/
def open_files (fs : FS) (path : String) : Bool × List String :=
  let path := stripStar path
  if fs.isDir path then (false, [])
  else
    let info := get_fileinfo path
    let ext := get_hdu_suffix info.2
    let files := fs.glob info.1
    (true, files.map (fun f => f ++ ext))

/-- The spec's ResourceLocator: a concrete path plus an optional
sub-index. -/
structure ResourceLocator where
  filesystem_path : String
  sub_index : Option Nat
deriving DecidableEq, Repr

/-- The locator each path produced by `open_files` denotes when the
loader later re-parses it (ginga runs `get_fileinfo` again on every
path handed to `load_paths`). -/
def expand (fs : FS) (path : String) : List ResourceLocator :=
  (open_files fs path).2.map (fun s =>
    let i := get_fileinfo s
    ⟨i.1, i.2⟩)

/-! ## `PDS4LabelHandler.load_file` (lines 54–107) -/

/-- One structure element returned by `pds4_read`: `is_array()`, `data`
and the metadata slice `load_file` reads. -/
structure StructElem where
  is_array : Bool
  data : List (List Int)
  meta_data : MetaData
deriving DecidableEq

/-- The failure modes of `load_file`: the explicit `IOError` for a
non-local filespec, the explicit `InvalidPDS4Data` when no structure is
an array, and the uncaught Python exceptions (`IndexError` from
`struct[numhdu]`, `TypeError` from `get_axis_array` returning `None`). -/
inductive LoadError
  | mustBeLocal (filespec : String)
  | invalidPDS4 (filespec : String)
  | indexOut
  | axisLookup
deriving DecidableEq

/-- `PDS4LabelHandler.load_file`: reject non-local filespecs before
reading anything, parse the file, pick `numhdu` or the first array
structure (the `for`/`else` loop), orient its data and return it with
the chosen index.  `pds4_read` stands for the external PDS4 parser, an
oracle from paths to structure lists. -/
def load_file (filespec : String) (pds4_read : String → List StructElem)
    (numhdu : Option Nat) : Except LoadError (List (List Int) × Nat) :=
  if ¬ (urlsplit_scheme filespec = "file" ∨ urlsplit_scheme filespec = "") then
    .error (.mustBeLocal filespec)
  else
    let struct := pds4_read (urlsplit_path filespec)
    let i? := match numhdu with
      | none => (List.range struct.length).find?
          (fun i => ((struct[i]?).map StructElem.is_array).getD false)
      | some n => some n
    match i? with
    | none => .error (.invalidPDS4 filespec)
    | some i =>
      match struct[i]? with
      | none => .error .indexOut
      | some e =>
        match orient e.data e.meta_data with
        | none => .error .axisLookup
        | some im => .ok (im, i)

/-! ## Concrete instances used by witnesses and counterexamples -/

/-- A 3×4 test array with twelve distinct values. -/
def exImg34 : List (List Int) := [[0,1,2,3],[4,5,6,7],[8,9,10,11]]

/-- A 2×3 test array. -/
def exImg23 : List (List Int) := [[1,2,3],[4,5,6]]

/-- A 2×2×2 (rank-3) test array with eight distinct values. -/
def exImg222 : List (List (List Int)) := [[[0,1],[2,3]],[[4,5],[6,7]]]

/-- Metadata declaring the horizontal axis at `sequence_number` 1 and
both display directions increasing (`Left to Right`, `Bottom to Top`). -/
def mdHseq1inc : MetaData :=
  { display_direction :=
      { horizontal_display_axis := "Sample",
        horizontal_display_direction := "Left to Right",
        vertical_display_axis := "Line",
        vertical_display_direction := "Bottom to Top" },
    axis_arrays := [{ axis_name := "Sample", sequence_number := 1 },
                    { axis_name := "Line", sequence_number := 2 }] }

/-- Metadata declaring the horizontal axis at `sequence_number` 2 (the
vertical at 1) and both display directions increasing. -/
def mdHseq2inc : MetaData :=
  { display_direction :=
      { horizontal_display_axis := "Sample",
        horizontal_display_direction := "Left to Right",
        vertical_display_axis := "Line",
        vertical_display_direction := "Bottom to Top" },
    axis_arrays := [{ axis_name := "Line", sequence_number := 1 },
                    { axis_name := "Sample", sequence_number := 2 }] }

/-- Metadata declaring the horizontal axis at `sequence_number` 1 with
both display directions decreasing (`Right to Left`, `Top to Bottom`). -/
def mdFlips : MetaData :=
  { display_direction :=
      { horizontal_display_axis := "Sample",
        horizontal_display_direction := "Right to Left",
        vertical_display_axis := "Line",
        vertical_display_direction := "Top to Bottom" },
    axis_arrays := [{ axis_name := "Sample", sequence_number := 1 },
                    { axis_name := "Line", sequence_number := 2 }] }

/-- Metadata whose declared horizontal display axis names no
`Axis_Array` of the label. -/
def mdNoAxis : MetaData :=
  { display_direction :=
      { horizontal_display_axis := "Sample",
        horizontal_display_direction := "Left to Right",
        vertical_display_axis := "Line",
        vertical_display_direction := "Bottom to Top" },
    axis_arrays := [{ axis_name := "Band", sequence_number := 3 }] }

/-- A filesystem with no directories, no links, no matches, and failing
`stat` everywhere. -/
def fsEmpty : FS :=
  { isDir := fun _ => false, isLink := fun _ => false, glob := fun _ => [],
    stat := fun _ => none, abspath := fun p => p, ctime := fun _ => "" }

/-- A filesystem where `/d` is a directory whose listing pattern `/d/*`
matches `b.txt` and `A.txt` (in that enumeration order). -/
def fsListing : FS :=
  { fsEmpty with
    isDir := fun p => p == "/d" || p == "/d/",
    glob := fun p => if p == "/d/*" then ["/d/b.txt", "/d/A.txt"] else [] }

/-- A filesystem where the pattern `/tmp/data1.xml` matches exactly that
file. -/
def fsGlobXml : FS :=
  { fsEmpty with
    glob := fun p => if p == "/tmp/data1.xml" then ["/tmp/data1.xml"] else [] }

/-- A filesystem where `/d/data.xml` is a directory and `/l/link.xml`
is a symbolic link. -/
def fsKinds : FS :=
  { fsEmpty with
    isDir := fun p => p == "/d/data.xml",
    isLink := fun p => p == "/l/link.xml" }

/-- An empty previously-stored browser state. -/
def st0 : BrowserState := { jumpinfo := [], curpath := "" }

/-- A parser oracle returning no structures for any path. -/
def read0 : String → List StructElem := fun _ => []

end PDS4

namespace PDS4

/-! # Theorems for the claims -/

/-- **C10.** For every filespec whose URL scheme is neither `file` nor
empty, `load_file` raises the `IOError` "File must be local" — for
every parser oracle and every `numhdu`, so the error precedes any file
read or structure parse, and only local paths ever reach the reader. -/
theorem load_file_rejects_nonlocal (filespec : String)
    (pds4_read : String → List StructElem) (numhdu : Option Nat)
    (h1 : urlsplit_scheme filespec ≠ "file")
    (h2 : urlsplit_scheme filespec ≠ "") :
    load_file filespec pds4_read numhdu =
      .error (.mustBeLocal filespec) := by
  unfold load_file
  simp [h1, h2]

/-- Witness for C10 at an `http://` filespec. -/
theorem load_file_rejects_nonlocal_witness :
    urlsplit_scheme "http://example.com/a.xml" ≠ "file" ∧
    urlsplit_scheme "http://example.com/a.xml" ≠ "" ∧
    load_file "http://example.com/a.xml" read0 none =
      .error (.mustBeLocal "http://example.com/a.xml") :=
  ⟨by decide, by decide,
   load_file_rejects_nonlocal "http://example.com/a.xml" read0 none
     (by decide) (by decide)⟩

/-- **C6.** When the directory component of the pattern does not resolve
to an existing directory, `browse` reports "Not a valid path" (via the
error channel, not a crash) and leaves the stored listing state —
entries and current path — unchanged. -/
theorem browse_invalid_dir_state_unchanged (fs : FS) (path : String)
    (st : BrowserState)
    (h : fs.isDir (browse_dirname fs path) = false) :
    browse fs path st =
      (st, some ("Not a valid path: " ++ browse_dirname fs path)) := by
  unfold browse
  simp [h]

/-- Witness for C6 on a filesystem with no directories. -/
theorem browse_invalid_dir_state_unchanged_witness :
    fsEmpty.isDir (browse_dirname fsEmpty "/nope/*") = false ∧
    browse fsEmpty "/nope/*" st0 =
      (st0, some ("Not a valid path: " ++ browse_dirname fsEmpty "/nope/*")) :=
  ⟨by decide,
   browse_invalid_dir_state_unchanged fsEmpty "/nope/*" st0 (by decide)⟩

/-- **C5.** For every path whose `stat` fails, `get_info` returns (it is
total — no exception escapes, so the listing is never aborted) an entry
with `st_mode`, `st_size` and `st_mtime` zeroed, the rendered columns
left at their `'N/A'` placeholder, and `path`, `name` and type still
populated. -/
theorem get_info_stat_failure (fs : FS) (path : String)
    (h : fs.stat path = none) :
    get_info fs path =
      { path := path, name := (os_split path).2,
        ftype := file_type fs path,
        st_mode := 0, st_mode_oct := "N/A",
        st_size := 0, st_size_str := "N/A",
        st_mtime := 0, st_mtime_str := "N/A" } := by
  unfold get_info
  simp [h]

/-- Witness for C5 at a path whose stat fails. -/
theorem get_info_stat_failure_witness :
    fsEmpty.stat "/x/gone.xml" = none ∧
    get_info fsEmpty "/x/gone.xml" =
      { path := "/x/gone.xml", name := "gone.xml", ftype := .xml,
        st_mode := 0, st_mode_oct := "N/A",
        st_size := 0, st_size_str := "N/A",
        st_mtime := 0, st_mtime_str := "N/A" } :=
  ⟨by decide, by
    have := get_info_stat_failure fsEmpty "/x/gone.xml" (by decide)
    rw [this]
    decide⟩

/-- **C9.** `get_info`'s classification precedence: Directory if the
path is a directory; otherwise SymbolicLink if it is a symbolic link;
otherwise RecognizedDataFile (`'xml'`) if the extension lowercases to
`.xml`; otherwise File — so a directory named `data.xml` classifies as
a directory. -/
theorem file_type_precedence (fs : FS) (path : String) :
    (fs.isDir path = true → file_type fs path = .dir) ∧
    (fs.isDir path = false → fs.isLink path = true →
      file_type fs path = .link) ∧
    (fs.isDir path = false → fs.isLink path = false →
      pyLower (splitext (os_split path).2).2 = ".xml" →
      file_type fs path = .xml) ∧
    (fs.isDir path = false → fs.isLink path = false →
      pyLower (splitext (os_split path).2).2 ≠ ".xml" →
      file_type fs path = .file) := by
  unfold file_type
  exact ⟨fun h => by simp [h],
         fun h1 h2 => by simp [h1, h2],
         fun h1 h2 h3 => by simp [h1, h2, h3],
         fun h1 h2 h3 => by simp [h1, h2, h3]⟩

/-- Witness for C9: a directory named `data.xml` is classified `'dir'`,
a link `'link'`, an `.XML` file `'xml'` (case-insensitively) and a
`.txt` file `'file'`. -/
theorem file_type_precedence_witness :
    file_type fsKinds "/d/data.xml" = .dir ∧
    file_type fsKinds "/l/link.xml" = .link ∧
    file_type fsKinds "/f/data.XML" = .xml ∧
    file_type fsKinds "/f/notes.txt" = .file :=
  ⟨(file_type_precedence fsKinds "/d/data.xml").1 (by decide),
   (file_type_precedence fsKinds "/l/link.xml").2.1 (by decide) (by decide),
   (file_type_precedence fsKinds "/f/data.XML").2.2.1
     (by decide) (by decide) (by decide),
   (file_type_precedence fsKinds "/f/notes.txt").2.2.2
     (by decide) (by decide) (by decide)⟩

/-- **C7.** `open_files` first strips exactly one trailing `'*'`, and
when the stripped path is a directory it returns `False` (a browse
request) with no paths loaded — not an error. -/
theorem open_files_directory_is_browse :
    (∀ cs : List Char, stripStar (String.mk (cs ++ ['*'])) = String.mk cs) ∧
    (∀ (fs : FS) (path : String), fs.isDir (stripStar path) = true →
      open_files fs path = (false, [])) := by
  constructor
  · intro cs
    unfold stripStar
    simp
  · intro fs path h
    unfold open_files
    simp [h]

/-- Witness for C7: `/d/*` strips to the directory `/d/` and browses. -/
theorem open_files_directory_is_browse_witness :
    stripStar (String.mk ("/d/".data ++ ['*'])) = String.mk "/d/".data ∧
    fsListing.isDir (stripStar "/d/*") = true ∧
    open_files fsListing "/d/*" = (false, []) :=
  ⟨open_files_directory_is_browse.1 "/d/".data,
   by decide,
   open_files_directory_is_browse.2 fsListing "/d/*" (by decide)⟩

/-! ### Decimal-rendering lemmas (for the sub-index round trip) -/

theorem digitChar_toNat (d : Nat) (h : d < 10) :
    (digitChar d).toNat = 48 + d := by
  interval_cases d <;> rfl

theorem digitChar_isDigit (d : Nat) (h : d < 10) :
    (digitChar d).isDigit = true := by
  interval_cases d <;> rfl

theorem natDigitsCore_ne_nil (fuel : Nat) :
    ∀ n, n < fuel → natDigitsCore fuel n ≠ [] := by
  induction fuel with
  | zero => intro n h; omega
  | succ fuel ih =>
    intro n h
    rw [natDigitsCore]
    by_cases h10 : n < 10 <;> simp [h10]

theorem natDigitsCore_all_digit (fuel : Nat) :
    ∀ n, n < fuel → ∀ c ∈ natDigitsCore fuel n, c.isDigit = true := by
  induction fuel with
  | zero => intro n h; omega
  | succ fuel ih =>
    intro n h c hc
    rw [natDigitsCore] at hc
    by_cases h10 : n < 10
    · rw [if_pos h10, List.mem_singleton] at hc
      subst hc
      exact digitChar_isDigit n h10
    · rw [if_neg h10, List.mem_append] at hc
      have hd : n / 10 < fuel := by
        have := Nat.div_lt_self (show 0 < n by omega) (show 1 < 10 by omega)
        omega
      rcases hc with hc | hc
      · exact ih (n / 10) hd c hc
      · rw [List.mem_singleton] at hc
        subst hc
        exact digitChar_isDigit _ (Nat.mod_lt _ (by omega))

theorem digitsVal_natDigitsCore (fuel : Nat) :
    ∀ n, n < fuel → digitsVal (natDigitsCore fuel n) = n := by
  induction fuel with
  | zero => intro n h; omega
  | succ fuel ih =>
    intro n h
    rw [natDigitsCore]
    by_cases h10 : n < 10
    · rw [if_pos h10]
      simp only [digitsVal, List.foldl_cons, List.foldl_nil]
      rw [digitChar_toNat n h10]
      omega
    · rw [if_neg h10]
      simp only [digitsVal, List.foldl_append, List.foldl_cons, List.foldl_nil]
      have hd : n / 10 < fuel := by
        have := Nat.div_lt_self (show 0 < n by omega) (show 1 < 10 by omega)
        omega
      have hv := ih (n / 10) hd
      rw [digitsVal] at hv
      rw [hv, digitChar_toNat _ (Nat.mod_lt _ (by omega))]
      omega

theorem natDigits_ne_nil (n : Nat) : natDigits n ≠ [] :=
  natDigitsCore_ne_nil (n + 1) n (by omega)

theorem natDigits_all_digit (n : Nat) :
    ∀ c ∈ natDigits n, c.isDigit = true :=
  natDigitsCore_all_digit (n + 1) n (by omega)

theorem digitsVal_natDigits (n : Nat) : digitsVal (natDigits n) = n :=
  digitsVal_natDigitsCore (n + 1) n (by omega)

theorem digit_ne_lbracket {c : Char} (h : c.isDigit = true) :
    (c != '[') = true := by
  rcases eq_or_ne c '[' with rfl | hne
  · exact absurd h (by decide)
  · simp [hne]

/-! ### takeWhile / dropWhile over a satisfying prefix -/

theorem takeWhile_append_all (p : α → Bool) (l₁ l₂ : List α)
    (h : ∀ a ∈ l₁, p a = true) :
    (l₁ ++ l₂).takeWhile p = l₁ ++ l₂.takeWhile p := by
  induction l₁ with
  | nil => simp
  | cons a t ihl =>
    simp only [List.cons_append, List.takeWhile_cons]
    rw [h a (by simp)]
    simp [ihl (fun b hb => h b (by simp [hb]))]

theorem dropWhile_append_all (p : α → Bool) (l₁ l₂ : List α)
    (h : ∀ a ∈ l₁, p a = true) :
    (l₁ ++ l₂).dropWhile p = l₂.dropWhile p := by
  induction l₁ with
  | nil => simp
  | cons a t ihl =>
    simp only [List.cons_append, List.dropWhile_cons]
    rw [h a (by simp)]
    simp [ihl (fun b hb => h b (by simp [hb]))]

/-- Re-parsing a path with the bracketed sub-index suffix reattached
recovers the original path and the same sub-index, whatever the path. -/
theorem get_fileinfo_reattach (f : String) (n : Nat) :
    get_fileinfo (f ++ get_hdu_suffix (some n)) = (f, some n) := by
  have hdata : (f ++ get_hdu_suffix (some n)).data
      = f.data ++ ('[' :: (natDigits n ++ [']'])) := by
    simp [get_hdu_suffix, pyStr, String.data_append]
  have hrev : (f ++ get_hdu_suffix (some n)).data.reverse
      = ']' :: ((natDigits n).reverse ++ ('[' :: f.data.reverse)) := by
    rw [hdata]
    simp
  have hdigitsrev : ∀ c ∈ (natDigits n).reverse, (c != '[') = true := by
    intro c hc
    rw [List.mem_reverse] at hc
    exact digit_ne_lbracket (natDigits_all_digit n c hc)
  unfold get_fileinfo
  rw [hrev]
  simp only
  rw [takeWhile_append_all _ _ _ hdigitsrev,
      dropWhile_append_all _ _ _ hdigitsrev]
  simp only [List.takeWhile_cons, List.dropWhile_cons]
  have hbr : (('[' : Char) != '[') = false := by decide
  rw [hbr]
  simp only [Bool.false_eq_true, if_false, List.append_nil]
  have hne : (natDigits n).reverse ≠ [] := by
    simp [natDigits_ne_nil n]
  have hall : (natDigits n).reverse.all Char.isDigit = true := by
    rw [List.all_eq_true]
    intro c hc
    rw [List.mem_reverse] at hc
    exact natDigits_all_digit n c hc
  rw [if_pos ⟨hne, hall⟩]
  simp [digitsVal_natDigits]

/-- **C8.** For every pattern carrying a trailing bracketed sub-index
`[N]` (and not naming a directory), `open_files` parses the suffix off,
globs the remaining pattern, and hands exactly one path per match to
the loader with the same `[N]` suffix reattached; re-parsed as the
loader does, each path is a ResourceLocator for the matched file with
`sub_index = N`. -/
theorem open_files_reattaches_subindex (fs : FS) (pat fp : String) (n : Nat)
    (hdir : fs.isDir (stripStar pat) = false)
    (hinfo : get_fileinfo (stripStar pat) = (fp, some n)) :
    open_files fs pat =
      (true, (fs.glob fp).map (fun f => f ++ get_hdu_suffix (some n))) ∧
    expand fs pat =
      (fs.glob fp).map (fun f => { filesystem_path := f, sub_index := some n }) := by
  have h1 : open_files fs pat =
      (true, (fs.glob fp).map (fun f => f ++ get_hdu_suffix (some n))) := by
    unfold open_files
    simp [hdir, hinfo]
  refine ⟨h1, ?_⟩
  unfold expand
  rw [h1]
  simp only [List.map_map]
  apply List.map_congr_left
  intro f _
  simp [Function.comp, get_fileinfo_reattach f n]

/-- Witness for C8: `expand("/tmp/data1.xml[2]")` yields exactly one
ResourceLocator, for `/tmp/data1.xml` with `sub_index = 2`. -/
theorem open_files_reattaches_subindex_witness :
    fsGlobXml.isDir (stripStar "/tmp/data1.xml[2]") = false ∧
    get_fileinfo (stripStar "/tmp/data1.xml[2]") = ("/tmp/data1.xml", some 2) ∧
    open_files fsGlobXml "/tmp/data1.xml[2]" =
      (true, ["/tmp/data1.xml[2]"]) ∧
    expand fsGlobXml "/tmp/data1.xml[2]" =
      [{ filesystem_path := "/tmp/data1.xml", sub_index := some 2 }] := by
  have h := open_files_reattaches_subindex fsGlobXml "/tmp/data1.xml[2]"
    "/tmp/data1.xml" 2 (by decide) (by decide)
  refine ⟨by decide, by decide, ?_, ?_⟩
  · rw [h.1]; decide
  · rw [h.2]; decide

/-! ### Shape and cell lemmas for the orientation transforms -/

theorem cell_npT (im : List (List Int)) (m n : Nat)
    (hm : im.length = m) (hn : ∀ row ∈ im, row.length = n)
    (hm0 : 0 < m) (r c : Nat) (hr : r < m) (hc : c < n) :
    cell (npT im) c r = cell im r c := by
  obtain ⟨r0, t, rfl⟩ : ∃ r0 t, im = r0 :: t := by
    cases im with
    | nil => simp at hm; omega
    | cons a l => exact ⟨a, l, rfl⟩
  have hr0 : r0.length = n := hn r0 (by simp)
  have hcr : c < r0.length := by rw [hr0]; exact hc
  have hrl : r < (r0 :: t).length := by rw [hm]; exact hr
  have hrow : (r0 :: t)[r] ∈ r0 :: t := List.getElem_mem hrl
  have hcrow : c < ((r0 :: t)[r]).length := by
    rw [hn _ hrow]; exact hc
  have hnpT : npT (r0 :: t)
      = (List.range r0.length).map
          (fun c => (r0 :: t).map (fun row => row.getD c default)) := rfl
  have h1 : (List.range r0.length)[c]? = some c := by
    simp [List.getElem?_range, hcr]
  unfold cell
  rw [hnpT, List.getElem?_map, h1]
  show ((r0 :: t).map (fun row => row.getD c default))[r]?
      = (r0 :: t)[r]?.bind (fun row => row[c]?)
  rw [List.getElem?_map, List.getElem?_eq_getElem hrl]
  show some (((r0 :: t)[r]).getD c default) = ((r0 :: t)[r])[c]?
  rw [List.getD_eq_getElem _ _ hcrow, List.getElem?_eq_getElem hcrow]

theorem cell_map_reverse (im : List (List Int)) (n : Nat)
    (hn : ∀ row ∈ im, row.length = n) (r c : Nat) (hc : c < n) :
    cell (im.map List.reverse) r c = cell im r (n - 1 - c) := by
  unfold cell
  rw [List.getElem?_map]
  cases hrow : im[r]? with
  | none => rfl
  | some row =>
    have hmem : row ∈ im := by
      obtain ⟨hlt, hrc⟩ := List.getElem?_eq_some.mp hrow
      exact hrc ▸ List.getElem_mem hlt
    have hlen : row.length = n := hn row hmem
    show (row.reverse)[c]? = row[n - 1 - c]?
    rw [List.getElem?_reverse (by rw [hlen]; exact hc), hlen]

theorem cell_outer_reverse (im : List (List Int)) (m : Nat)
    (hm : im.length = m) (r c : Nat) (hr : r < m) :
    cell im.reverse r c = cell im (m - 1 - r) c := by
  unfold cell
  rw [List.getElem?_reverse (by rw [hm]; exact hr), hm]

theorem npT_shape (im : List (List Int)) (m n : Nat)
    (hm : im.length = m) (hn : ∀ row ∈ im, row.length = n) (hm0 : 0 < m) :
    (npT im).length = n ∧ ∀ row ∈ npT im, row.length = m := by
  obtain ⟨r0, t, rfl⟩ : ∃ r0 t, im = r0 :: t := by
    cases im with
    | nil => simp at hm; omega
    | cons a l => exact ⟨a, l, rfl⟩
  have hr0 : r0.length = n := hn r0 (by simp)
  constructor
  · simp [npT, hr0]
  · intro row hrow
    have hrow2 : row ∈ (List.range r0.length).map
        (fun c => (r0 :: t).map (fun row => row.getD c default)) := hrow
    obtain ⟨c, _, rfl⟩ := List.mem_map.mp hrow2
    have : ((r0 :: t).map (fun row => row.getD c default)).length
        = (r0 :: t).length := List.length_map ..
    rw [this, hm]

theorem flips_shape (X : List (List Int)) (R C : Nat) (fh fv : Bool)
    (hXl : X.length = R) (hXr : ∀ row ∈ X, row.length = C) :
    (if fv then (if fh then X.map List.reverse else X).reverse
     else (if fh then X.map List.reverse else X)).length = R ∧
    ∀ row ∈ (if fv then (if fh then X.map List.reverse else X).reverse
             else (if fh then X.map List.reverse else X)), row.length = C := by
  have hmap : ∀ row ∈ X.map List.reverse, row.length = C := by
    intro row hrow
    obtain ⟨row0, hmem, rfl⟩ := List.mem_map.mp hrow
    simp [hXr row0 hmem]
  cases fh <;> cases fv
  · exact ⟨hXl, hXr⟩
  · refine ⟨by simp [hXl], fun row hrow => ?_⟩
    have hrow' : row ∈ X.reverse := hrow
    rw [List.mem_reverse] at hrow'
    exact hXr row hrow'
  · exact ⟨by simp [hXl], fun row hrow => hmap row hrow⟩
  · refine ⟨by simp [hXl], fun row hrow => ?_⟩
    have hrow' : row ∈ (X.map List.reverse).reverse := hrow
    rw [List.mem_reverse] at hrow'
    exact hmap row hrow'

theorem cell_flips (X : List (List Int)) (R C : Nat) (fh fv : Bool)
    (hXl : X.length = R) (hXr : ∀ row ∈ X, row.length = C)
    (r c : Nat) (hr : r < R) (hc : c < C) :
    cell (if fv then (if fh then X.map List.reverse else X).reverse
          else (if fh then X.map List.reverse else X)) r c
      = cell X (if fv then R - 1 - r else r) (if fh then C - 1 - c else c) := by
  have hmapl : (X.map List.reverse).length = R := by simp [hXl]
  cases fh <;> cases fv
  · rfl
  · exact cell_outer_reverse X R hXl r c hr
  · exact cell_map_reverse X C hXr r c hc
  · have h1 := cell_outer_reverse (X.map List.reverse) R hmapl r c hr
    have h2 := cell_map_reverse X C hXr (R - 1 - r) c hc
    exact h1.trans h2

/-- With a successful horizontal-axis lookup, `orient` returns exactly
the three-stage transform chain of lines 93–102. -/
theorem orient_eq_of_find (im : List (List Int)) (md : MetaData)
    (haxis : AxisArray)
    (hfind : get_axis_array md md.display_direction.horizontal_display_axis
      = some haxis) :
    orient im md = some (
      (fun X =>
        if pyIn "Top to Bottom" md.display_direction.vertical_display_direction
        then
          (if pyIn "Right to Left" md.display_direction.horizontal_display_direction
           then X.map List.reverse else X).reverse
        else
          (if pyIn "Right to Left" md.display_direction.horizontal_display_direction
           then X.map List.reverse else X))
      (if haxis.sequence_number == 1 then npT im else im)) := by
  unfold orient
  rw [hfind]
  rfl

/-- **C1.** For every rectangular `m × n` 2-D array and axis metadata
whose horizontal-axis lookup succeeds, `normalize` returns exactly the
claimed sequence: transpose the two memory axes iff the Horizontal
axis's `sequence_number` is 1, then reverse memory axis 1 (columns) iff
the horizontal display direction is Decreasing (`Right to Left`), then
reverse memory axis 0 (rows) iff the vertical display direction is
`Top to Bottom` — stated element-wise, so values are moved, never
changed: the output has the transposed/original shape and each output
cell `(r, c)` holds the input cell at the flip-adjusted (and, when
transposed, swapped) indices. -/
theorem orient_spec (im : List (List Int)) (md : MetaData) (haxis : AxisArray)
    (m n : Nat)
    (hfind : get_axis_array md md.display_direction.horizontal_display_axis
      = some haxis)
    (hm : im.length = m) (hn : ∀ row ∈ im, row.length = n)
    (hm0 : 0 < m) (_hn0 : 0 < n) :
    ∃ out, orient im md = some out ∧
      out.length = (if haxis.sequence_number == 1 then n else m) ∧
      (∀ row ∈ out, row.length = (if haxis.sequence_number == 1 then m else n)) ∧
      ∀ r c R C r1 c1,
        R = (if haxis.sequence_number == 1 then n else m) →
        C = (if haxis.sequence_number == 1 then m else n) →
        r1 = (if pyIn "Top to Bottom" md.display_direction.vertical_display_direction
              then R - 1 - r else r) →
        c1 = (if pyIn "Right to Left" md.display_direction.horizontal_display_direction
              then C - 1 - c else c) →
        r < R → c < C →
        cell out r c =
          (if haxis.sequence_number == 1 then cell im c1 r1 else cell im r1 c1) := by
  by_cases ht : haxis.sequence_number == 1
  · refine ⟨_, orient_eq_of_find im md haxis hfind, ?_, ?_, ?_⟩
    · simp only [ht]
      exact (flips_shape (npT im) n m _ _ (npT_shape im m n hm hn hm0).1
        (npT_shape im m n hm hn hm0).2).1
    · simp only [ht]
      exact (flips_shape (npT im) n m _ _ (npT_shape im m n hm hn hm0).1
        (npT_shape im m n hm hn hm0).2).2
    · intro r c R C r1 c1 hR hC hr1 hc1 hrR hcC
      subst hR hC hr1 hc1
      simp only [ht, if_true] at hrR hcC ⊢
      rw [cell_flips (npT im) n m _ _ (npT_shape im m n hm hn hm0).1
        (npT_shape im m n hm hn hm0).2 r c hrR hcC]
      have ha : (if pyIn "Top to Bottom"
          md.display_direction.vertical_display_direction = true
          then n - 1 - r else r) < n := by
        split <;> omega
      have hb : (if pyIn "Right to Left"
          md.display_direction.horizontal_display_direction = true
          then m - 1 - c else c) < m := by
        split <;> omega
      exact cell_npT im m n hm hn hm0 _ _ hb ha
  · rw [Bool.not_eq_true] at ht
    refine ⟨_, orient_eq_of_find im md haxis hfind, ?_, ?_, ?_⟩
    · simp only [ht]
      exact (flips_shape im m n _ _ hm hn).1
    · simp only [ht]
      exact (flips_shape im m n _ _ hm hn).2
    · intro r c R C r1 c1 hR hC hr1 hc1 hrR hcC
      subst hR hC hr1 hc1
      simp only [ht] at hrR hcC ⊢
      simp only [Bool.false_eq_true, if_neg] at hrR hcC ⊢
      exact cell_flips im m n _ _ hm hn r c hrR hcC

/-- Witness for C1 on a 2×3 array with `sequence_number` 1 and both
directions decreasing (transpose plus both flips). -/
theorem orient_spec_witness :
    get_axis_array mdFlips mdFlips.display_direction.horizontal_display_axis
      = some { axis_name := "Sample", sequence_number := 1 } ∧
    exImg23.length = 2 ∧ (∀ row ∈ exImg23, row.length = 3) ∧
    (∃ out, orient exImg23 mdFlips = some out ∧
      out.length = (if (1 : Nat) == 1 then 3 else 2) ∧
      (∀ row ∈ out, row.length = (if (1 : Nat) == 1 then 2 else 3)) ∧
      ∀ r c R C r1 c1,
        R = (if (1 : Nat) == 1 then 3 else 2) →
        C = (if (1 : Nat) == 1 then 2 else 3) →
        r1 = (if pyIn "Top to Bottom"
              mdFlips.display_direction.vertical_display_direction
              then R - 1 - r else r) →
        c1 = (if pyIn "Right to Left"
              mdFlips.display_direction.horizontal_display_direction
              then C - 1 - c else c) →
        r < R → c < C →
        cell out r c =
          (if (1 : Nat) == 1 then cell exImg23 c1 r1 else cell exImg23 r1 c1)) :=
  ⟨by decide, by decide, by decide,
   orient_spec exImg23 mdFlips { axis_name := "Sample", sequence_number := 1 }
     2 3 (by decide) (by decide) (by decide) (by decide) (by decide)⟩

/-! ### Sorting lemmas for the directory listing -/

theorem pyLeList_append (p a b : List Char) :
    pyLeList (p ++ a) (p ++ b) = pyLeList a b := by
  induction p with
  | nil => rfl
  | cons c t ih => simp [pyLeList, lt_self_iff_false, ih]

theorem lowerLe_prefix (d a b : String) :
    lowerLe (d ++ "/" ++ a) (d ++ "/" ++ b) = lowerLe a b := by
  unfold lowerLe pyLe pyLower
  have hda : (d ++ "/" ++ a).data = d.data ++ '/' :: a.data := by
    simp [String.data_append]
  have hdb : (d ++ "/" ++ b).data = d.data ++ '/' :: b.data := by
    simp [String.data_append]
  rw [hda, hdb]
  have hmain := pyLeList_append (d.data.map Char.toLower ++ ['/'])
    (a.data.map Char.toLower) (b.data.map Char.toLower)
  simpa [List.append_assoc] using hmain

theorem mem_insertSorted (le : α → α → Bool) (x a : α) (l : List α) :
    a ∈ insertSorted le x l ↔ a = x ∨ a ∈ l := by
  induction l with
  | nil => simp [insertSorted]
  | cons y ys ih =>
    unfold insertSorted
    by_cases h : le x y
    · simp [h]
    · simp [h, ih]
      tauto

theorem mem_sortBy (le : α → α → Bool) (a : α) (l : List α) :
    a ∈ sortBy le l ↔ a ∈ l := by
  induction l with
  | nil => simp [sortBy]
  | cons x xs ih =>
    unfold sortBy
    rw [mem_insertSorted, ih]
    simp

theorem insertSorted_congr (le₁ le₂ : α → α → Bool) (x : α) (l : List α)
    (h : ∀ b ∈ l, le₁ x b = le₂ x b) :
    insertSorted le₁ x l = insertSorted le₂ x l := by
  induction l with
  | nil => rfl
  | cons y ys ih =>
    unfold insertSorted
    rw [h y (by simp)]
    by_cases hc : le₂ x y
    · simp [hc]
    · simp only [hc, Bool.false_eq_true, if_false, List.cons.injEq, true_and]
      exact ih (fun b hb => h b (by simp [hb]))

theorem sortBy_congr (le₁ le₂ : α → α → Bool) (l : List α)
    (h : ∀ a ∈ l, ∀ b ∈ l, le₁ a b = le₂ a b) :
    sortBy le₁ l = sortBy le₂ l := by
  induction l with
  | nil => rfl
  | cons x xs ih =>
    unfold sortBy
    rw [ih (fun a ha b hb => h a (by simp [ha]) b (by simp [hb]))]
    exact insertSorted_congr le₁ le₂ x (sortBy le₂ xs)
      (fun b hb => h x (by simp) b
        (by simp [(mem_sortBy le₂ b xs).mp hb]))

/-- Splitting `dir ++ "/" ++ name` (with `name` slash-free) recovers the
name as the tail. -/
theorem os_split_tail (d nm : String) (h : '/' ∉ nm.data) :
    (os_split (d ++ "/" ++ nm)).2 = nm := by
  have hdata : (d ++ "/" ++ nm).data = d.data ++ '/' :: nm.data := by
    simp [String.data_append]
  have hrev : (d ++ "/" ++ nm).data.reverse
      = nm.data.reverse ++ '/' :: d.data.reverse := by
    rw [hdata]
    simp
  have hall : ∀ c ∈ nm.data.reverse, (c != '/') = true := by
    intro c hc
    rw [List.mem_reverse] at hc
    have hcne : c ≠ '/' := fun he => h (he ▸ hc)
    simp [hcne]
  show String.mk
      ((((d ++ "/" ++ nm).data.reverse).takeWhile (fun c => c != '/')).reverse)
    = nm
  rw [hrev, takeWhile_append_all _ _ _ hall]
  simp

/-- **C4.** For every pattern whose directory component resolves to a
directory and whose glob matches are paths of that directory (a
slash-free name appended to `dir ++ "/"`), the listing `browse` stores
has the synthetic parent entry `<dir>/..` at index 0, and the remaining
entries are the matches sorted case-insensitively ascending by entry
name with ties kept in the original enumeration order — `sortBy` is a
stable insertion sort, so equal keys stay in glob order. -/
theorem browse_listing_sorted (fs : FS) (path : String) (st : BrowserState)
    (hdir : fs.isDir (browse_dirname fs path) = true)
    (hglob : ∀ f ∈ fs.glob (browse_glob_path fs path),
      ∃ nm : String, '/' ∉ nm.data ∧
        f = browse_dirname fs path ++ "/" ++ nm) :
    (browse fs path st).1.jumpinfo =
      get_info fs (os_join (browse_dirname fs path) "..") ::
        (sortBy (fun a b => lowerLe (os_split a).2 (os_split b).2)
            (fs.glob (browse_glob_path fs path))).map (get_info fs) ∧
    (browse fs path st).2 = none := by
  have hsort : sortBy lowerLe (fs.glob (browse_glob_path fs path))
      = sortBy (fun a b => lowerLe (os_split a).2 (os_split b).2)
          (fs.glob (browse_glob_path fs path)) := by
    apply sortBy_congr
    intro a ha b hb
    obtain ⟨nma, hnma, rfl⟩ := hglob a ha
    obtain ⟨nmb, hnmb, rfl⟩ := hglob b hb
    rw [os_split_tail _ _ hnma, os_split_tail _ _ hnmb]
    exact lowerLe_prefix _ _ _
  constructor
  · simp [browse, hdir, hsort]
  · simp [browse, hdir]

/-- Witness for C4 on a directory `/d` whose pattern matches `b.txt`
and `A.txt` (enumerated in that order; listed sorted, parent first). -/
theorem browse_listing_sorted_witness :
    fsListing.isDir (browse_dirname fsListing "/d/*") = true ∧
    (browse fsListing "/d/*" st0).1.jumpinfo =
      get_info fsListing (os_join (browse_dirname fsListing "/d/*") "..") ::
        (sortBy (fun a b => lowerLe (os_split a).2 (os_split b).2)
            (fsListing.glob (browse_glob_path fsListing "/d/*"))).map
          (get_info fsListing) := by
  have hg : ∀ f ∈ fsListing.glob (browse_glob_path fsListing "/d/*"),
      ∃ nm : String, '/' ∉ nm.data ∧
        f = browse_dirname fsListing "/d/*" ++ "/" ++ nm := by
    intro f hf
    have he : fsListing.glob (browse_glob_path fsListing "/d/*")
        = ["/d/b.txt", "/d/A.txt"] := by decide
    rw [he] at hf
    rcases List.mem_cons.mp hf with rfl | hf
    · exact ⟨"b.txt", by decide, by decide⟩
    · rcases List.mem_cons.mp hf with rfl | hf
      · exact ⟨"A.txt", by decide, by decide⟩
      · cases hf
  exact ⟨by decide, (browse_listing_sorted fsListing "/d/*" st0 (by decide) hg).1⟩

/-- **C2, counterexample.** The claim declares Horizontal at
`sequence_number` 1 with increasing directions and expects the array
back unchanged, but the code transposes exactly when the horizontal
axis's `sequence_number` is 1: on a concrete 3×4 array the result is
the 4×3 transpose, not the input. -/
theorem orient_seq1_not_id : orient exImg34 mdHseq1inc ≠ some exImg34 := by
  decide

/-- **C2, amended.** For every 3×4 array, `normalize` with Horizontal =
axis with `sequence_number` 2 / Increasing and Vertical = axis with
`sequence_number` 1 / Increasing returns the array unchanged (no
transpose, no flips). -/
theorem orient_h2_v1_increasing_id (im : List (List Int))
    (_h3 : im.length = 3) (_h4 : ∀ r ∈ im, r.length = 4) :
    orient im mdHseq2inc = some im := rfl

/-- Witness for the amended C2 on a concrete 3×4 array. -/
theorem orient_h2_v1_increasing_id_witness :
    exImg34.length = 3 ∧ (∀ r ∈ exImg34, r.length = 4) ∧
    orient exImg34 mdHseq2inc = some exImg34 :=
  ⟨by decide, by decide,
   orient_h2_v1_increasing_id exImg34 (by decide) (by decide)⟩

/-- **C3, counterexample.** On a rank-3 array the code does not fail
with `UnsupportedRank` (no rank check exists): `load_file`'s transforms
run on the 3-D array — `im.T` reverses all three axes — and an oriented
3-D array is returned. -/
theorem orient3_rank3_no_failure :
    orient3 exImg222 mdHseq1inc = some [[[0,4],[2,6]],[[1,5],[3,7]]] := by
  decide

/-- **C3, amended.** The normalizer validates nothing beyond the
horizontal axis lookup: on a 2-D array it fails (with the uncaught
lookup `TypeError`) exactly when the declared horizontal display axis
names no `Axis_Array`; it never checks the vertical axis, and on a
rank-3 array it never fails at all — the transforms are applied and an
array is returned. -/
theorem orient_fails_iff_haxis_missing (md : MetaData)
    (im : List (List Int)) (im3 : List (List (List Int))) :
    (orient im md = none ↔
      get_axis_array md md.display_direction.horizontal_display_axis = none) ∧
    (get_axis_array md md.display_direction.horizontal_display_axis ≠ none →
      orient3 im3 md ≠ none) := by
  constructor
  · unfold orient
    cases h : get_axis_array md md.display_direction.horizontal_display_axis <;>
      simp [h]
  · intro h
    unfold orient3
    cases hh : get_axis_array md md.display_direction.horizontal_display_axis
    · exact absurd hh h
    · simp [hh]

/-- Witness for the amended C3: a label missing its declared horizontal
axis fails, a complete label never fails on a rank-3 array. -/
theorem orient_fails_iff_haxis_missing_witness :
    orient exImg34 mdNoAxis = none ∧
    get_axis_array mdHseq1inc
      mdHseq1inc.display_direction.horizontal_display_axis ≠ none ∧
    orient3 exImg222 mdHseq1inc ≠ none :=
  ⟨(orient_fails_iff_haxis_missing mdNoAxis exImg34 exImg222).1.mpr (by decide),
   by decide,
   (orient_fails_iff_haxis_missing mdHseq1inc exImg34 exImg222).2 (by decide)⟩

end PDS4
